import Mathlib

/-!
Verification of the note-grid data model, editing algorithms, transport
scheduler and audio exporter of the sid-tune-maker repository.

The grid is `this.grid[voice][noteIndex][step]`, where each cell is either
`null` or a note-start record `{ length : n }`.  A cell is modelled as
`Option Nat` (`none` = null, `some n` = `{length: n}`); the lane
`this.grid[voice][noteIndex]` is modelled as a `List (Option Nat)` indexed
by column, and one voice's piano roll `this.grid[voice]` as a list of
lanes indexed by note row.  Out-of-range JS reads yield `undefined`, which
every guard in the source treats exactly like `null`; they are modelled by
`List.getD _ _ none`.
-/

/-- One grid cell: `null` or `{ length : n }`. -/
abbrev Cell := Option Nat

/-- One (voice, row) lane of the grid, indexed by column. -/
abbrev Lane := List Cell

/-- One voice's piano roll `this.grid[voice]`: a list of lanes indexed by row. -/
abbrev Roll := List Lane

namespace Sequencer

/-- The truthiness test `cellData && cellData.length` used throughout
`sequencer.js`: a cell counts as a note-start only when it is non-null and
its `length` field is non-zero (a zero length is falsy in JS). -/
def cellStart (c : Cell) : Option Nat :=
  match c with
  | some len => if len = 0 then none else some len
  | none => none

/-- The note-start (if any) recorded at column `c` of a lane. -/
def startAt (lane : Lane) (c : Nat) : Option Nat :=
  cellStart (lane.getD c none)

/-- The backward scan of `Sequencer.isNoteContinuation` (sequencer.js,
lines 171-182): the loop variable runs from `c` down to `0`; at the first
cell holding a truthy note-start it returns `c + cellData.length > col`,
and it skips over empty cells (the `continue` branch) instead of stopping
at the first gap. -/
def contScan (lane : Lane) (col : Nat) : Nat → Bool
  | 0 =>
    match startAt lane 0 with
    | some len => decide (col < 0 + len)
    | none => false
  | c + 1 =>
    match startAt lane (c + 1) with
    | some len => decide (col < c + 1 + len)
    | none => contScan lane col c

/-- `Sequencer.isNoteContinuation(voice, noteIndex, col)` (sequencer.js,
lines 169-184), with `lane = this.grid[voice][noteIndex]`.  The JS loop
starts at `c = col - 1`; when `col = 0` the loop body never runs and the
function returns false. -/
def isNoteContinuation (lane : Lane) (col : Nat) : Bool :=
  match col with
  | 0 => false
  | c + 1 => contScan lane (c + 1) c

/-- The lane non-overlap invariant of the spec's data model: within one
(voice, row) lane, the spans `[col, col+length)` of two distinct
note-starts never intersect. -/
def LaneInv (lane : Lane) : Prop :=
  ∀ c1 l1 c2 l2, startAt lane c1 = some l1 → startAt lane c2 = some l2 →
    c1 ≠ c2 → c1 + l1 ≤ c2 ∨ c2 + l2 ≤ c1

/-- Well-formedness of the data model: every stored note-start has
`length ≥ 1` (the source only ever writes `{length: n}` with `n ≥ 1`). -/
def LaneWF (lane : Lane) : Prop :=
  ∀ c l, lane.getD c none = some l → 0 < l

/-- Executable check of `LaneInv`, used to discharge the invariant on
concrete lanes. -/
def laneInvB (lane : Lane) : Bool :=
  (List.range lane.length).all fun c1 =>
    (List.range lane.length).all fun c2 =>
      match startAt lane c1, startAt lane c2 with
      | some l1, some l2 =>
          decide (c1 = c2) || decide (c1 + l1 ≤ c2) || decide (c2 + l2 ≤ c1)
      | _, _ => true

/-- Executable check of `LaneWF`. -/
def laneWFB (lane : Lane) : Bool :=
  (List.range lane.length).all fun c =>
    match lane.getD c none with
    | some l => decide (0 < l)
    | none => true

theorem startAt_pos {lane : Lane} {c l : Nat} (h : startAt lane c = some l) :
    0 < l := by
  unfold startAt cellStart at h
  rcases hc : lane.getD c none with _ | len
  · rw [hc] at h; exact absurd h (by simp)
  · rw [hc] at h
    by_cases h0 : len = 0
    · simp [h0] at h
    · simp [h0] at h
      omega

theorem startAt_lt_length {lane : Lane} {c l : Nat}
    (h : startAt lane c = some l) : c < lane.length := by
  by_contra hc
  have : lane.getD c none = none := List.getD_eq_default _ _ (by omega)
  unfold startAt at h
  rw [this] at h
  exact absurd h (by simp [cellStart])

theorem laneInv_of_laneInvB {lane : Lane} (h : laneInvB lane = true) :
    LaneInv lane := by
  intro c1 l1 c2 l2 h1 h2 hne
  have hc1 := startAt_lt_length h1
  have hc2 := startAt_lt_length h2
  unfold laneInvB at h
  rw [List.all_eq_true] at h
  have h' := h c1 (List.mem_range.mpr hc1)
  rw [List.all_eq_true] at h'
  have h'' := h' c2 (List.mem_range.mpr hc2)
  rw [h1, h2] at h''
  simp at h''
  omega

theorem laneWF_of_laneWFB {lane : Lane} (h : laneWFB lane = true) :
    LaneWF lane := by
  intro c l hc
  have hlen : c < lane.length := by
    by_contra hge
    have : lane.getD c none = none := List.getD_eq_default _ _ (by omega)
    rw [this] at hc
    exact absurd hc (by simp)
  unfold laneWFB at h
  rw [List.all_eq_true] at h
  have h' := h c (List.mem_range.mpr hlen)
  rw [hc] at h'
  simpa using h'

/-- If the scan returns `true`, some note-start at a column `≤ c` covers
`col`: this direction needs no invariant. -/
theorem contScan_true_exists {lane : Lane} {col : Nat} :
    ∀ {c : Nat}, contScan lane col c = true →
      ∃ s l, s ≤ c ∧ startAt lane s = some l ∧ col < s + l := by
  intro c
  induction c with
  | zero =>
    intro h
    unfold contScan at h
    rcases hs : startAt lane 0 with _ | len
    · rw [hs] at h; exact absurd h (by simp)
    · rw [hs] at h
      exact ⟨0, len, Nat.le_refl 0, hs, by simpa using h⟩
  | succ c ih =>
    intro h
    unfold contScan at h
    rcases hs : startAt lane (c + 1) with _ | len
    · rw [hs] at h
      obtain ⟨s, l, hsc, hst, hlt⟩ := ih h
      exact ⟨s, l, Nat.le_succ_of_le hsc, hst, hlt⟩
    · rw [hs] at h
      exact ⟨c + 1, len, Nat.le_refl _, hs, by simpa using h⟩

/-- If every column in `(s, c]` is start-free and `s` holds a note-start,
the scan from `c` reaches `s` and answers the span test there. -/
theorem contScan_finds {lane : Lane} {col s l : Nat}
    (hs : startAt lane s = some l) :
    ∀ c, s ≤ c → (∀ k, s < k → k ≤ c → startAt lane k = none) →
      contScan lane col c = decide (col < s + l) := by
  intro c
  induction c with
  | zero =>
    intro hsc _
    have : s = 0 := Nat.le_zero.mp hsc
    subst this
    unfold contScan
    rw [hs]
  | succ c ih =>
    intro hsc hemp
    by_cases hcase : s = c + 1
    · subst hcase
      unfold contScan
      rw [hs]
    · have hlt : s ≤ c := by omega
      have hnone : startAt lane (c + 1) = none := hemp (c + 1) (by omega) (Nat.le_refl _)
      unfold contScan
      rw [hnone]
      exact ih hlt (fun k hk1 hk2 => hemp k hk1 (by omega))

/-- Under the non-overlap invariant, no second note-start can sit strictly
inside the span of a covering note-start. -/
theorem no_start_inside {lane : Lane} (hinv : LaneInv lane)
    {s l : Nat} (hs : startAt lane s = some l) :
    ∀ k, s < k → k < s + l → startAt lane k = none := by
  intro k hk1 hk2
  rcases hkst : startAt lane k with _ | lk
  · rfl
  · have := hinv s l k lk hs hkst (by omega)
    have := startAt_pos hkst
    omega

/-- Characterization of `isNoteContinuation` on invariant-satisfying
lanes: the scan answers `true` exactly when some earlier note-start's span
covers the queried column. -/
theorem isNoteContinuation_iff {lane : Lane} (hinv : LaneInv lane)
    (col : Nat) :
    isNoteContinuation lane col = true ↔
      ∃ s l, startAt lane s = some l ∧ s < col ∧ col < s + l := by
  constructor
  · intro h
    match col, h with
    | c + 1, h =>
      obtain ⟨s, l, hsc, hst, hlt⟩ := @contScan_true_exists lane (c + 1) c h
      exact ⟨s, l, hst, by omega, hlt⟩
  · rintro ⟨s, l, hst, hslt, hcov⟩
    match col, hslt with
    | c + 1, hslt =>
      show contScan lane (c + 1) c = true
      have hemp : ∀ k, s < k → k ≤ c → startAt lane k = none := by
        intro k hk1 hk2
        exact no_start_inside hinv hst k hk1 (by omega)
      rw [contScan_finds hst c (by omega) hemp]
      simpa using hcov

/-! ### Editing operations -/

/-- The scan loop of `Sequencer.deleteNoteAt` (sequencer.js, lines
454-462): walk `c` downward; at the first truthy note-start whose span
covers `col` (`c + startData.length > col`), null that start's cell and
return; a note-start that does not cover `col` is skipped and the scan
continues. -/
def delScan (lane : Lane) (col : Nat) : Nat → Lane
  | 0 =>
    match startAt lane 0 with
    | some len => if col < 0 + len then lane.set 0 none else lane
    | none => lane
  | c + 1 =>
    match startAt lane (c + 1) with
    | some len => if col < c + 1 + len then lane.set (c + 1) none else delScan lane col c
    | none => delScan lane col c

/-- `Sequencer.deleteNoteAt(voice, noteIndex, col)` (sequencer.js, lines
443-463), with `lane = this.grid[voice][noteIndex]`: a truthy note-start
at `col` is nulled directly; otherwise the backward scan looks for the
note-start extending over `col`.  Falling off the scan is a silent
no-op. -/
def deleteNoteAt (lane : Lane) (col : Nat) : Lane :=
  match startAt lane col with
  | some _ => lane.set col none
  | none =>
    match col with
    | 0 => lane
    | c + 1 => delScan lane (c + 1) c

/-- The grid effect of the note-placement branch of
`Sequencer.handlePointerDown` (sequencer.js, lines 336-349): a raw-truthy
cell (`this.grid[voice][noteIndex][col]`, non-null even with length 0) or
a continuation is deleted via `deleteNoteAt`; otherwise a `{length: 1}`
note-start is written at `col`.  The selection branches do not touch the
grid and are omitted. -/
def handlePointerDown (lane : Lane) (col : Nat) : Lane :=
  if lane.getD col none ≠ none ∨ isNoteContinuation lane col = true then
    deleteNoteAt lane col
  else
    lane.set col (some 1)

/-- The grid effect of the rapid-mode branch of
`Sequencer.handlePointerMove` (sequencer.js, lines 377-384): place a
`{length: 1}` note-start only when the cell is null and not a
continuation; otherwise skip. -/
def rapidPlace (lane : Lane) (col : Nat) : Lane :=
  if lane.getD col none = none ∧ isNoteContinuation lane col = false then
    lane.set col (some 1)
  else
    lane

/-- The grid effect of the drag-extension branch of
`Sequencer.handlePointerMove` (sequencer.js, lines 385-396):
`newLength = max(1, col - drawStart.col + 1)`,
`oldLength = grid[startCol]?.length || 1`, and whenever they differ the
start's cell is rewritten to `{length: newLength}` with no overlap
check.  (JS `col - startCol + 1` is at most 0 when `col < startCol`, so
the `max` with 1 coincides with ℕ truncated subtraction.) -/
def dragExtend (lane : Lane) (startCol col : Nat) : Lane :=
  let newLength := max 1 (col - startCol + 1)
  let oldLength :=
    match lane.getD startCol none with
    | some l => if l = 0 then 1 else l
    | none => 1
  if newLength ≠ oldLength then lane.set startCol (some newLength) else lane

/-- The inner column loop of `Sequencer.deleteSelection` (sequencer.js,
lines 782-786): null every cell with `startCol ≤ c ≤ endCol`. -/
def clearColumns (lane : Lane) (c1 c2 : Nat) : Lane :=
  (List.range' c1 (c2 + 1 - c1)).foldl (fun l c => l.set c none) lane

/-- `Sequencer.deleteSelection` (sequencer.js, lines 777-790) restricted
to its grid effect, with `roll = this.grid[voice]` for the selection's
voice: rows `startNote ≤ n ≤ endNote` have columns
`startCol ≤ c ≤ endCol` nulled. -/
def deleteSelection (roll : Roll) (n1 n2 c1 c2 : Nat) : Roll :=
  (List.range' n1 (n2 + 1 - n1)).foldl
    (fun r n => r.set n (clearColumns (r.getD n []) c1 c2)) roll

/-- One clipboard entry of `Sequencer.copySelection`:
`{noteOffset, colOffset, length}` relative to the selection origin. -/
structure ClipNote where
  noteOffset : Nat
  colOffset : Nat
  length : Nat

/-- `Sequencer.pasteClipboard` (sequencer.js, lines 640-657) restricted to
its grid effect, with `roll = this.grid[voice]`: each clipboard note is
written as a fresh `{length}` note-start at
`(startNote + noteOffset, startCol + colOffset)` when inside the
`numRows × numCols` bounds (`this.notes.length` and `this.cols`), with no
overlap check; out-of-bounds notes are silently skipped. -/
def pasteClipboard (roll : Roll) (numRows numCols : Nat)
    (clipNotes : List ClipNote) (startNote startCol : Nat) : Roll :=
  clipNotes.foldl
    (fun r note =>
      let n := startNote + note.noteOffset
      let c := startCol + note.colOffset
      if n < numRows ∧ c < numCols then
        r.set n ((r.getD n []).set c (some note.length))
      else r)
    roll

/-- The per-roll form of the data-model invariant: every lane of the
voice's piano roll satisfies `LaneInv` (an out-of-range row is the empty
lane). -/
def RollInv (roll : Roll) : Prop :=
  ∀ n, LaneInv (roll.getD n [])

end Sequencer

/-- `List.getD` after `List.set`: the written index reads back the new
value when in range, and every other index is unchanged. -/
theorem getD_set {α : Type} (l : List α) (i j : Nat) (a d : α) :
    (l.set i a).getD j d = if i = j ∧ i < l.length then a else l.getD j d := by
  induction l generalizing i j with
  | nil => simp [List.getD]
  | cons x xs ih =>
    cases i with
    | zero =>
      cases j with
      | zero => simp [List.getD]
      | succ j => simp [List.getD]
    | succ i =>
      cases j with
      | zero => simp [List.getD]
      | succ j =>
        have := ih i j
        simp only [List.set, List.length_cons, List.getD_cons_succ]
        rw [this]
        by_cases h : i = j ∧ i < xs.length
        · rw [if_pos h, if_pos (by omega)]
        · rw [if_neg h, if_neg (by omega)]

namespace Sequencer

theorem startAt_set {lane : Lane} (d c : Nat) (v : Cell) :
    startAt (lane.set d v) c =
      if d = c ∧ d < lane.length then cellStart v else startAt lane c := by
  unfold startAt
  rw [getD_set]
  by_cases h : d = c ∧ d < lane.length
  · rw [if_pos h, if_pos h]
  · rw [if_neg h, if_neg h]

/-- A lane whose note-starts are a pointwise subset of another lane's
inherits the non-overlap invariant. -/
theorem laneInv_mono {lane lane' : Lane}
    (hsub : ∀ c l, startAt lane' c = some l → startAt lane c = some l) :
    LaneInv lane → LaneInv lane' := by
  intro hinv c1 l1 c2 l2 h1 h2 hne
  exact hinv c1 l1 c2 l2 (hsub c1 l1 h1) (hsub c2 l2 h2) hne

theorem startAt_of_set_none {lane : Lane} {d c l : Nat}
    (h : startAt (lane.set d none) c = some l) : startAt lane c = some l := by
  rw [startAt_set] at h
  by_cases hc : d = c ∧ d < lane.length
  · rw [if_pos hc] at h
    exact absurd h (by simp [cellStart])
  · rwa [if_neg hc] at h

theorem laneInv_set_none {lane : Lane} (hinv : LaneInv lane) (d : Nat) :
    LaneInv (lane.set d none) :=
  laneInv_mono (fun _ _ h => startAt_of_set_none h) hinv

/-- The result of the `deleteNoteAt` scan is either the unchanged lane or
the lane with one cell nulled. -/
theorem delScan_shape (lane : Lane) (col : Nat) :
    ∀ c, delScan lane col c = lane ∨ ∃ k, delScan lane col c = lane.set k none := by
  intro c
  induction c with
  | zero =>
    unfold delScan
    rcases hs : startAt lane 0 with _ | len
    · exact Or.inl (by simp only [hs])
    · simp only [hs]
      by_cases h : col < 0 + len
      · exact Or.inr ⟨0, by rw [if_pos h]⟩
      · exact Or.inl (by rw [if_neg h])
  | succ c ih =>
    unfold delScan
    rcases hs : startAt lane (c + 1) with _ | len
    · simp only [hs]
      exact ih
    · simp only [hs]
      by_cases h : col < c + 1 + len
      · exact Or.inr ⟨c + 1, by rw [if_pos h]⟩
      · rw [if_neg h]; exact ih

theorem laneInv_deleteNoteAt {lane : Lane} (hinv : LaneInv lane) (col : Nat) :
    LaneInv (deleteNoteAt lane col) := by
  unfold deleteNoteAt
  rcases hst : startAt lane col with _ | L
  · simp only [hst]
    cases col with
    | zero => exact hinv
    | succ c =>
      show LaneInv (delScan lane (c + 1) c)
      rcases delScan_shape lane (c + 1) c with h | ⟨k, h⟩
      · rw [h]; exact hinv
      · rw [h]; exact laneInv_set_none hinv k
  · simp only [hst]
    exact laneInv_set_none hinv col

/-- Writing a fresh `{length: 1}` note-start at a null, non-continuation
cell preserves the invariant. -/
theorem laneInv_place {lane : Lane} (hinv : LaneInv lane) {col : Nat}
    (_hcell : lane.getD col none = none)
    (hcont : isNoteContinuation lane col = false) :
    LaneInv (lane.set col (some 1)) := by
  intro c1 l1 c2 l2 h1 h2 hne
  rw [startAt_set] at h1 h2
  have hnocover : ¬ ∃ s l, startAt lane s = some l ∧ s < col ∧ col < s + l := by
    intro hc
    have := (isNoteContinuation_iff hinv col).mpr hc
    rw [this] at hcont
    exact absurd hcont (by simp)
  by_cases hb1 : col = c1 ∧ col < lane.length
  · rw [if_pos hb1] at h1
    have hl1 : l1 = 1 := by
      simp [cellStart] at h1
      omega
    have hb2 : ¬ (col = c2 ∧ col < lane.length) := by
      intro hc; exact hne (hb1.1 ▸ hc.1 ▸ rfl)
    rw [if_neg hb2] at h2
    rcases Nat.lt_or_ge c2 col with hlt | hge
    · right
      by_contra hgt
      exact hnocover ⟨c2, l2, h2, hb1.1 ▸ hlt, by omega⟩
    · left
      have : c2 ≠ col := fun hceq => hne (hb1.1 ▸ hceq.symm ▸ rfl)
      omega
  · rw [if_neg hb1] at h1
    by_cases hb2 : col = c2 ∧ col < lane.length
    · rw [if_pos hb2] at h2
      have hl2 : l2 = 1 := by
        simp [cellStart] at h2
        omega
      rcases Nat.lt_or_ge c1 col with hlt | hge
      · left
        by_contra hgt
        exact hnocover ⟨c1, l1, h1, hb2.1 ▸ hlt, by omega⟩
      · right
        have : c1 ≠ col := fun hceq => hne (hb2.1 ▸ hceq ▸ rfl)
        omega
    · rw [if_neg hb2] at h2
      exact hinv c1 l1 c2 l2 h1 h2 hne

theorem laneInv_handlePointerDown {lane : Lane} (hinv : LaneInv lane)
    (col : Nat) : LaneInv (handlePointerDown lane col) := by
  unfold handlePointerDown
  by_cases h : lane.getD col none ≠ none ∨ isNoteContinuation lane col = true
  · rw [if_pos h]; exact laneInv_deleteNoteAt hinv col
  · rw [if_neg h]
    push_neg at h
    exact laneInv_place hinv h.1 (by simpa using h.2)

theorem laneInv_rapidPlace {lane : Lane} (hinv : LaneInv lane)
    (col : Nat) : LaneInv (rapidPlace lane col) := by
  unfold rapidPlace
  by_cases h : lane.getD col none = none ∧ isNoteContinuation lane col = false
  · rw [if_pos h]; exact laneInv_place hinv h.1 h.2
  · rw [if_neg h]; exact hinv

theorem laneInv_clearColumns {lane : Lane} (hinv : LaneInv lane)
    (c1 c2 : Nat) : LaneInv (clearColumns lane c1 c2) := by
  unfold clearColumns
  generalize List.range' c1 (c2 + 1 - c1) = cs
  induction cs generalizing lane with
  | nil => exact hinv
  | cons c cs ih => exact ih (laneInv_set_none hinv c)

theorem rollInv_deleteSelection {roll : Roll} (hinv : RollInv roll)
    (n1 n2 c1 c2 : Nat) : RollInv (deleteSelection roll n1 n2 c1 c2) := by
  unfold deleteSelection
  generalize List.range' n1 (n2 + 1 - n1) = ns
  induction ns generalizing roll with
  | nil => exact hinv
  | cons n ns ih =>
    apply ih
    intro i
    rw [getD_set]
    by_cases h : n = i ∧ n < roll.length
    · rw [if_pos h]; exact laneInv_clearColumns (hinv n) c1 c2
    · rw [if_neg h]; exact hinv i

/-! ### Decidable span-cover tests, for concrete witnesses -/

/-- Executable form of "some note-start strictly before `c` covers `c`"
(the right-hand side of `isNoteContinuation_iff`). -/
def coverB (lane : Lane) (c : Nat) : Bool :=
  (List.range lane.length).any fun s =>
    match startAt lane s with
    | some l => decide (s < c) && decide (c < s + l)
    | none => false

theorem cover_iff_coverB {lane : Lane} {c : Nat} :
    (∃ s l, startAt lane s = some l ∧ s < c ∧ c < s + l) ↔
      coverB lane c = true := by
  constructor
  · rintro ⟨s, l, hs, h1, h2⟩
    unfold coverB
    rw [List.any_eq_true]
    refine ⟨s, List.mem_range.mpr (startAt_lt_length hs), ?_⟩
    rw [hs]
    simp [h1, h2]
  · intro h
    unfold coverB at h
    rw [List.any_eq_true] at h
    obtain ⟨s, _, hs⟩ := h
    rcases hst : startAt lane s with _ | l
    · rw [hst] at hs
      exact absurd hs (by simp)
    · rw [hst] at hs
      simp at hs
      exact ⟨s, l, hst, hs.1, hs.2⟩

/-- Executable form of "column `c` lies inside some note-start's span
`[s, s+l)`" (including `c` being the start itself). -/
def hitB (lane : Lane) (c : Nat) : Bool :=
  (List.range lane.length).any fun s =>
    match startAt lane s with
    | some l => decide (s ≤ c) && decide (c < s + l)
    | none => false

theorem hit_iff_hitB {lane : Lane} {c : Nat} :
    (∃ s l, startAt lane s = some l ∧ s ≤ c ∧ c < s + l) ↔
      hitB lane c = true := by
  constructor
  · rintro ⟨s, l, hs, h1, h2⟩
    unfold hitB
    rw [List.any_eq_true]
    refine ⟨s, List.mem_range.mpr (startAt_lt_length hs), ?_⟩
    rw [hs]
    simp [h1, h2]
  · intro h
    unfold hitB at h
    rw [List.any_eq_true] at h
    obtain ⟨s, _, hs⟩ := h
    rcases hst : startAt lane s with _ | l
    · rw [hst] at hs
      exact absurd hs (by simp)
    · rw [hst] at hs
      simp at hs
      exact ⟨s, l, hst, hs.1, hs.2⟩

/-! ### Behaviour of the `deleteNoteAt` scan -/

/-- If every column in `(s, c]` is start-free and the note-start at `s`
covers the deleted column, the scan from `c` nulls exactly cell `s`. -/
theorem delScan_finds {lane : Lane} {col s l : Nat}
    (hs : startAt lane s = some l) (hcov : col < s + l) :
    ∀ c, s ≤ c → (∀ k, s < k → k ≤ c → startAt lane k = none) →
      delScan lane col c = lane.set s none := by
  intro c
  induction c with
  | zero =>
    intro hsc _
    have : s = 0 := Nat.le_zero.mp hsc
    subst this
    unfold delScan
    simp only [hs]
    rw [if_pos hcov]
  | succ c ih =>
    intro hsc hemp
    by_cases hcase : s = c + 1
    · subst hcase
      unfold delScan
      simp only [hs]
      rw [if_pos hcov]
    · have hnone : startAt lane (c + 1) = none :=
        hemp (c + 1) (by omega) (Nat.le_refl _)
      unfold delScan
      simp only [hnone]
      exact ih (by omega) (fun k hk1 hk2 => hemp k hk1 (by omega))

/-- If no note-start at a column `≤ c` extends over the deleted column,
the scan falls off the front of the lane and changes nothing. -/
theorem delScan_noop {lane : Lane} {col : Nat} :
    ∀ c, (∀ k lk, k ≤ c → startAt lane k = some lk → k + lk ≤ col) →
      delScan lane col c = lane := by
  intro c
  induction c with
  | zero =>
    intro hall
    unfold delScan
    rcases hs : startAt lane 0 with _ | len
    · simp only [hs]
    · simp only [hs]
      have := hall 0 len (Nat.le_refl 0) hs
      rw [if_neg (by omega)]
  | succ c ih =>
    intro hall
    unfold delScan
    rcases hs : startAt lane (c + 1) with _ | len
    · simp only [hs]
      exact ih (fun k lk hk => hall k lk (by omega))
    · simp only [hs]
      have := hall (c + 1) len (Nat.le_refl _) hs
      rw [if_neg (by omega)]
      exact ih (fun k lk hk => hall k lk (by omega))

theorem laneInv_nil : LaneInv ([] : Lane) := by
  intro c1 l1 c2 l2 h1 _ _
  unfold startAt at h1
  rw [List.getD_eq_default _ _ (by simp)] at h1
  exact absurd h1 (by simp [cellStart])

theorem getD_mem_of_lt {α : Type} {l : List α} {n : Nat} {d : α}
    (h : n < l.length) : l.getD n d ∈ l := by
  induction l generalizing n with
  | nil => simp at h
  | cons x xs ih =>
    cases n with
    | zero => simp [List.getD]
    | succ n =>
      simp only [List.getD_cons_succ]
      exact List.mem_cons_of_mem _ (ih (by simpa using h))

/-- Executable check of `RollInv` for concrete rolls. -/
theorem rollInv_of_all_laneInvB {roll : Roll}
    (h : roll.all laneInvB = true) : RollInv roll := by
  intro n
  by_cases hn : n < roll.length
  · apply laneInv_of_laneInvB
    rw [List.all_eq_true] at h
    exact h _ (getD_mem_of_lt hn)
  · rw [List.getD_eq_default _ _ (by omega)]
    exact laneInv_nil

theorem getD_of_startAt {lane : Lane} {c l : Nat}
    (h : startAt lane c = some l) : lane.getD c none = some l := by
  unfold startAt at h
  rcases hg : lane.getD c none with _ | m
  · rw [hg] at h
    exact absurd h (by simp [cellStart])
  · rw [hg] at h
    simp only [cellStart] at h
    by_cases h0 : m = 0
    · rw [if_pos h0] at h
      exact absurd h (by simp)
    · rw [if_neg h0] at h
      exact h

/-! ### Claim theorems about the grid editing algorithms -/

/-- C1 (amended): on an invariant-satisfying lane with a note-start of
length `L` at `col`, `isNoteContinuation` is true at every column
strictly inside the span `(col, col+L)`, false at `col` itself, false at
the boundary `col + L`, and false at any column at or beyond the
boundary that no other note-start's span covers (the backward scan skips
empty cells rather than stopping at the first gap). -/
theorem isNoteContinuation_span_boundaries {lane : Lane} (hinv : LaneInv lane)
    {col L : Nat} (hst : startAt lane col = some L) :
    (∀ c, col < c → c < col + L → isNoteContinuation lane c = true) ∧
    isNoteContinuation lane col = false ∧
    isNoteContinuation lane (col + L) = false ∧
    (∀ c, col + L ≤ c →
      (¬ ∃ s l, startAt lane s = some l ∧ s < c ∧ c < s + l) →
      isNoteContinuation lane c = false) := by
  refine ⟨?_, ?_, ?_, ?_⟩
  · intro c h1 h2
    exact (isNoteContinuation_iff hinv c).mpr ⟨col, L, hst, h1, h2⟩
  · apply Bool.eq_false_iff.mpr
    intro h
    obtain ⟨s, l, hs, hlt, hcov⟩ := (isNoteContinuation_iff hinv col).mp h
    have hne : s ≠ col := by omega
    have := hinv s l col L hs hst hne
    omega
  · apply Bool.eq_false_iff.mpr
    intro h
    obtain ⟨s, l, hs, hlt, hcov⟩ := (isNoteContinuation_iff hinv (col + L)).mp h
    have hL := startAt_pos hst
    by_cases hsc : s = col
    · subst hsc
      rw [hst] at hs
      have : L = l := by simpa using hs
      omega
    · have := hinv s l col L hs hst hsc
      omega
  · intro c _ hnc
    apply Bool.eq_false_iff.mpr
    intro h
    exact hnc ((isNoteContinuation_iff hinv c).mp h)

/-- C1 counterexample: the claim also asserts `isNoteContinuation` is
false at every `c ≥ col + L`, over every invariant-satisfying grid.  On
the lane with a note-start of length 1 at column 0 and another of length
2 at column 2 (no spans overlap), column `3 ≥ 0 + 1` is a continuation of
the second note, so the scan returns true there. -/
theorem isNoteContinuation_beyond_span_counterexample :
    LaneInv [some 1, none, some 2, none] ∧
    startAt [some 1, none, some 2, none] 0 = some 1 ∧
    isNoteContinuation [some 1, none, some 2, none] 3 = true :=
  ⟨laneInv_of_laneInvB (by decide), by decide, by decide⟩

theorem isNoteContinuation_span_boundaries_witness :
    isNoteContinuation [none, some 3, none, none, none, some 1] 2 = true ∧
    isNoteContinuation [none, some 3, none, none, none, some 1] 1 = false ∧
    isNoteContinuation [none, some 3, none, none, none, some 1] 4 = false :=
  have h := @isNoteContinuation_span_boundaries
    [none, some 3, none, none, none, some 1]
    (laneInv_of_laneInvB (by decide)) 1 3 (by decide)
  ⟨h.1 2 (by decide) (by decide), h.2.1, h.2.2.1⟩

/-- C2 (amended): on an invariant-satisfying, well-formed lane, the
pointer-down and rapid-mode placements write a fresh `{length: 1}`
note-start exactly when the target column lies in no existing
note-start's span; when it does, rapid mode leaves the grid unchanged,
while pointer-down instead deletes the covering note (`deleteNoteAt`).
Drag-extension (`dragExtend`) performs no such check — see the
counterexample. -/
theorem placement_overlap_guard :
    (∀ (lane : Lane) (col : Nat), LaneInv lane → LaneWF lane →
      (¬ ∃ s l, startAt lane s = some l ∧ s ≤ col ∧ col < s + l) →
      rapidPlace lane col = lane.set col (some 1) ∧
      handlePointerDown lane col = lane.set col (some 1)) ∧
    (∀ (lane : Lane) (col : Nat), LaneInv lane →
      (∃ s l, startAt lane s = some l ∧ s ≤ col ∧ col < s + l) →
      rapidPlace lane col = lane ∧
      handlePointerDown lane col = deleteNoteAt lane col) := by
  constructor
  · intro lane col hinv hwf hno
    have hg : lane.getD col none = none := by
      rcases hgc : lane.getD col none with _ | l
      · rfl
      · have hl : 0 < l := hwf col l hgc
        have hst : startAt lane col = some l := by
          unfold startAt
          rw [hgc]
          simp [cellStart]
          omega
        exact absurd ⟨col, l, hst, Nat.le_refl col, by omega⟩ hno
    have hcont : isNoteContinuation lane col = false := by
      apply Bool.eq_false_iff.mpr
      intro h
      obtain ⟨s, l, hs, hlt, hcov⟩ := (isNoteContinuation_iff hinv col).mp h
      exact hno ⟨s, l, hs, by omega, hcov⟩
    constructor
    · unfold rapidPlace
      rw [if_pos ⟨hg, hcont⟩]
    · unfold handlePointerDown
      have hnotc : ¬ (lane.getD col none ≠ none ∨
          isNoteContinuation lane col = true) := by
        rintro (hne | hc)
        · exact hne hg
        · rw [hcont] at hc
          exact absurd hc (by simp)
      rw [if_neg hnotc]
  · intro lane col hinv hhit
    obtain ⟨s, l, hs, hle, hcov⟩ := hhit
    rcases Nat.eq_or_lt_of_le hle with heq | hlt
    · subst heq
      have hg : lane.getD s none = some l := getD_of_startAt hs
      constructor
      · unfold rapidPlace
        have hngd : ¬ (lane.getD s none = none ∧
            isNoteContinuation lane s = false) := by
          rintro ⟨he, _⟩
          rw [hg] at he
          exact absurd he (by simp)
        rw [if_neg hngd]
      · unfold handlePointerDown
        rw [if_pos (Or.inl (by rw [hg]; simp))]
    · have hcont : isNoteContinuation lane col = true :=
        (isNoteContinuation_iff hinv col).mpr ⟨s, l, hs, hlt, hcov⟩
      constructor
      · unfold rapidPlace
        have hngd : ¬ (lane.getD col none = none ∧
            isNoteContinuation lane col = false) := by
          rintro ⟨_, hf⟩
          rw [hcont] at hf
          exact absurd hf (by simp)
        rw [if_neg hngd]
      · unfold handlePointerDown
        rw [if_pos (Or.inr hcont)]

/-- C2 counterexample: the claim requires every placement path —
including drag-extension — to reject and leave the grid unchanged when
the resulting span would overlap an existing note-start's span.  On the
invariant-satisfying lane with length-1 note-starts at columns 0 and 2,
dragging from column 0 to column 3 rewrites the first start to
`{length: 4}` with no check: the grid changes and the new span `[0,4)`
overlaps `[2,3)`. -/
theorem dragExtend_overlap_counterexample :
    LaneInv [some 1, none, some 1, none] ∧
    dragExtend [some 1, none, some 1, none] 0 3 = [some 4, none, some 1, none] ∧
    ¬ LaneInv [some 4, none, some 1, none] := by
  refine ⟨laneInv_of_laneInvB (by decide), by decide, ?_⟩
  intro h
  have := h 0 4 2 1 (by decide) (by decide) (by decide)
  omega

theorem placement_overlap_guard_witness :
    rapidPlace [none, some 2, none] 0 = [some 1, some 2, none] ∧
    handlePointerDown [none, some 2, none] 0 = [some 1, some 2, none] ∧
    rapidPlace [none, some 2, none] 2 = [none, some 2, none] ∧
    handlePointerDown [none, some 2, none] 2 = deleteNoteAt [none, some 2, none] 2 := by
  have h1 := placement_overlap_guard.1 [none, some 2, none] 0
    (laneInv_of_laneInvB (by decide)) (laneWF_of_laneWFB (by decide))
    (fun hex => absurd (hit_iff_hitB.mp hex) (by decide))
  have h2 := placement_overlap_guard.2 [none, some 2, none] 2
    (laneInv_of_laneInvB (by decide)) (hit_iff_hitB.mpr (by decide))
  exact ⟨h1.1.trans (by decide), h1.2.trans (by decide), h2.1, h2.2⟩

/-- C3 (amended): the deletion operations and the two guarded placement
paths preserve the lane non-overlap invariant.  (The unguarded writers —
drag-extension, `moveSelection`, `transposeSelection`,
`duplicateSelection` and `pasteClipboard` — write note-starts with no
overlap check and can break it; see the counterexample.) -/
theorem guarded_ops_preserve_laneInv :
    (∀ (lane : Lane) (col : Nat), LaneInv lane →
      LaneInv (handlePointerDown lane col)) ∧
    (∀ (lane : Lane) (col : Nat), LaneInv lane →
      LaneInv (rapidPlace lane col)) ∧
    (∀ (lane : Lane) (col : Nat), LaneInv lane →
      LaneInv (deleteNoteAt lane col)) ∧
    (∀ (roll : Roll) (n1 n2 c1 c2 : Nat), RollInv roll →
      RollInv (deleteSelection roll n1 n2 c1 c2)) :=
  ⟨fun _ col hinv => laneInv_handlePointerDown hinv col,
   fun _ col hinv => laneInv_rapidPlace hinv col,
   fun _ col hinv => laneInv_deleteNoteAt hinv col,
   fun _ n1 n2 c1 c2 hinv => rollInv_deleteSelection hinv n1 n2 c1 c2⟩

/-- C3 counterexample: the claim says every mutating grid operation
preserves the non-overlap invariant.  Pasting a length-2 clipboard note
at the origin of a roll whose lane already holds a note-start at column 1
writes it with no overlap check, producing overlapping spans `[0,2)` and
`[1,2)`. -/
theorem pasteClipboard_invariant_counterexample :
    RollInv [[none, some 1, none, none]] ∧
    pasteClipboard [[none, some 1, none, none]] 1 4 [⟨0, 0, 2⟩] 0 0 =
      [[some 2, some 1, none, none]] ∧
    ¬ LaneInv [some 2, some 1, none, none] := by
  refine ⟨rollInv_of_all_laneInvB (by decide), by decide, ?_⟩
  intro h
  have := h 0 2 1 1 (by decide) (by decide) (by decide)
  omega

theorem guarded_ops_preserve_laneInv_witness :
    LaneInv (handlePointerDown [some 2, none, none, none] 3) ∧
    LaneInv (rapidPlace [some 2, none, none, none] 3) ∧
    LaneInv (deleteNoteAt [some 2, none, none, none] 1) ∧
    RollInv (deleteSelection [[some 2, none, none, none]] 0 0 0 3) :=
  ⟨guarded_ops_preserve_laneInv.1 [some 2, none, none, none] 3
     (laneInv_of_laneInvB (by decide)),
   guarded_ops_preserve_laneInv.2.1 [some 2, none, none, none] 3
     (laneInv_of_laneInvB (by decide)),
   guarded_ops_preserve_laneInv.2.2.1 [some 2, none, none, none] 1
     (laneInv_of_laneInvB (by decide)),
   guarded_ops_preserve_laneInv.2.2.2 [[some 2, none, none, none]] 0 0 0 3
     (rollInv_of_all_laneInvB (by decide))⟩

/-- C4: on an invariant-satisfying lane, deleting at any column inside a
note-start's span `[col, col+L)` nulls exactly that start's cell and
leaves every other cell unchanged, and deleting at a column that is
neither a note-start nor covered by one is a silent no-op. -/
theorem deleteNoteAt_correct {lane : Lane} (hinv : LaneInv lane) :
    (∀ col L c, startAt lane col = some L → col ≤ c → c < col + L →
      deleteNoteAt lane c = lane.set col none) ∧
    (∀ c, (¬ ∃ s l, startAt lane s = some l ∧ s ≤ c ∧ c < s + l) →
      deleteNoteAt lane c = lane) := by
  constructor
  · intro col L c hst hle hlt
    rcases Nat.eq_or_lt_of_le hle with heq | hgt
    · subst heq
      unfold deleteNoteAt
      simp only [hst]
    · have hnone : startAt lane c = none := no_start_inside hinv hst c hgt hlt
      match c, hgt with
      | cm + 1, hgt =>
        unfold deleteNoteAt
        simp only [hnone]
        show delScan lane (cm + 1) cm = lane.set col none
        exact delScan_finds hst hlt cm (by omega)
          (fun k hk1 hk2 => no_start_inside hinv hst k hk1 (by omega))
  · intro c hno
    have hcnone : startAt lane c = none := by
      rcases hcs : startAt lane c with _ | l
      · rfl
      · have := startAt_pos hcs
        exact absurd ⟨c, l, hcs, Nat.le_refl c, by omega⟩ hno
    unfold deleteNoteAt
    simp only [hcnone]
    cases c with
    | zero => rfl
    | succ cm =>
      show delScan lane (cm + 1) cm = lane
      refine delScan_noop cm (fun k lk hk hks => ?_)
      by_contra hgt
      exact hno ⟨k, lk, hks, by omega, by omega⟩

theorem deleteNoteAt_correct_witness :
    deleteNoteAt [some 2, none, none] 1 = [none, none, none] ∧
    deleteNoteAt [some 2, none, none] 2 = [some 2, none, none] := by
  have h := @deleteNoteAt_correct [some 2, none, none]
    (laneInv_of_laneInvB (by decide))
  constructor
  · exact (h.1 0 2 1 (by decide) (by decide) (by decide)).trans (by decide)
  · exact h.2 2 (fun hex => absurd (hit_iff_hitB.mp hex) (by decide))

end Sequencer

/-! ## Transport: playback scheduling -/

/-- The state of the `Transport` scheduler (Transport constructor,
lines 7-26).  `schedulerInterval` records whether the `setInterval` tick
is registered; `voices` models the engine's per-voice "currently
sounding" flags, all cleared by `engine.stopAll()`; `pendingBeats`
models, in queue order, the beats of the deferred
`setTimeout(() => this.onBeat(beat), delay)` callbacks created by
`scheduleBeat` that have not fired yet. -/
structure TransportState where
  isPlaying : Bool
  bpm : ℚ
  currentBeat : Nat
  loopStart : Nat
  loopEnd : Nat
  schedulerInterval : Bool
  nextBeatTime : ℚ
  pendingBeats : List Nat
  voices : List Bool

namespace Transport

/-- `this.scheduleAheadTime = 0.1` seconds (line 20). -/
def scheduleAheadTime : ℚ := 1 / 10

/-- `60.0 / this.bpm / 4`: seconds per 16th-note beat
(`Transport.advanceBeat`, line 98). -/
def secondsPerBeat (bpm : ℚ) : ℚ := 60 / bpm / 4

/-- The constructor state (lines 11-25) with `state.bpm = 120`: stopped,
beat 0, loop bars 1-4, no tick registered, no pending callbacks, three
silent voices. -/
def initial : TransportState :=
  { isPlaying := false
    bpm := 120
    currentBeat := 0
    loopStart := 1
    loopEnd := 4
    schedulerInterval := false
    nextBeatTime := 0
    pendingBeats := []
    voices := [false, false, false] }

/-- `Transport.play()` (lines 31-42): no-op while playing; otherwise set
`currentBeat = (loopStart - 1) * 16`, anchor `nextBeatTime` to the
engine's current time `now`, and register the scheduler interval. -/
def play (s : TransportState) (now : ℚ) : TransportState :=
  if s.isPlaying then s
  else
    { s with
      isPlaying := true
      currentBeat := (s.loopStart - 1) * 16
      nextBeatTime := now
      schedulerInterval := true }

/-- `Transport.stop()` (lines 47-66): no-op while stopped; otherwise
clear the scheduler interval, stop all voices (`engine.stopAll()`), and
reset `currentBeat` to the loop start.  The `setTimeout` handles created
by `scheduleBeat` are not stored anywhere, so the pending deferred
`onBeat` callbacks are left untouched. -/
def stop (s : TransportState) : TransportState :=
  if ¬ s.isPlaying then s
  else
    { s with
      isPlaying := false
      schedulerInterval := false
      voices := s.voices.map (fun _ => false)
      currentBeat := (s.loopStart - 1) * 16 }

/-- `Transport.scheduleBeat(beat, time)` (lines 84-91): defer an
`onBeat(beat)` UI callback via `setTimeout`; the handle is discarded. -/
def scheduleBeat (s : TransportState) (beat : Nat) : TransportState :=
  { s with pendingBeats := s.pendingBeats ++ [beat] }

/-- `Transport.advanceBeat()` (lines 96-111): advance the virtual clock
by `secondsPerBeat` and increment `currentBeat`; the wrap check runs
after the increment, so the incremented value is tested against
`loopEnd * 16` and reset to `(loopStart - 1) * 16` on wrap. -/
def advanceBeat (s : TransportState) : TransportState :=
  if s.currentBeat + 1 ≥ s.loopEnd * 16 then
    { s with
      nextBeatTime := s.nextBeatTime + secondsPerBeat s.bpm
      currentBeat := (s.loopStart - 1) * 16 }
  else
    { s with
      nextBeatTime := s.nextBeatTime + secondsPerBeat s.bpm
      currentBeat := s.currentBeat + 1 }

/-- One body iteration of the `while` loop of `Transport.scheduler()`
(lines 75-78): `scheduleBeat(this.currentBeat, this.nextBeatTime)` then
`advanceBeat()`. -/
def schedulerStep (s : TransportState) : TransportState :=
  advanceBeat (scheduleBeat s s.currentBeat)

/-- The `while (nextBeatTime < currentTime + scheduleAheadTime)` loop of
`Transport.scheduler()` (lines 71-79), with an explicit iteration bound
`fuel` (for positive `secondsPerBeat` the JS loop runs finitely many
iterations per tick). -/
def schedulerLoop (now : ℚ) : Nat → TransportState → TransportState
  | 0, s => s
  | fuel + 1, s =>
    if s.nextBeatTime < now + scheduleAheadTime then
      schedulerLoop now fuel (schedulerStep s)
    else s

/-- One firing of the `setInterval` tick: `clearInterval` in `stop`
deregisters it, so the scheduler body runs only while
`schedulerInterval` is set. -/
def schedulerTick (s : TransportState) (now : ℚ) (fuel : Nat) : TransportState :=
  if s.schedulerInterval then schedulerLoop now fuel s else s

/-- The runtime firing one queued `setTimeout`: pop the oldest pending
deferred callback and invoke `onBeat` with its beat; `none` when nothing
is pending. -/
def fireNextTimeout (s : TransportState) : Option (Nat × TransportState) :=
  match s.pendingBeats with
  | [] => none
  | b :: rest => some (b, { s with pendingBeats := rest })

theorem advanceBeat_currentBeat (s : TransportState) :
    (advanceBeat s).currentBeat =
      if s.currentBeat + 1 ≥ s.loopEnd * 16 then (s.loopStart - 1) * 16
      else s.currentBeat + 1 := by
  unfold advanceBeat
  by_cases h : s.currentBeat + 1 ≥ s.loopEnd * 16
  · rw [if_pos h, if_pos h]
  · rw [if_neg h, if_neg h]

theorem advanceBeat_loopStart (s : TransportState) :
    (advanceBeat s).loopStart = s.loopStart := by
  unfold advanceBeat
  split <;> rfl

theorem advanceBeat_loopEnd (s : TransportState) :
    (advanceBeat s).loopEnd = s.loopEnd := by
  unfold advanceBeat
  split <;> rfl

theorem advanceBeat_bpm (s : TransportState) :
    (advanceBeat s).bpm = s.bpm := by
  unfold advanceBeat
  split <;> rfl

theorem advanceBeat_nextBeatTime (s : TransportState) :
    (advanceBeat s).nextBeatTime = s.nextBeatTime + secondsPerBeat s.bpm := by
  unfold advanceBeat
  split <;> rfl

/-- The virtual clock after `n` advances: `nextBeatTime` grows by exactly
`n · secondsPerBeat` and `bpm` is untouched. -/
theorem iterate_advanceBeat_clock (s0 : TransportState) :
    ∀ n : Nat, ((advanceBeat)^[n] s0).nextBeatTime =
        s0.nextBeatTime + n * secondsPerBeat s0.bpm ∧
      ((advanceBeat)^[n] s0).bpm = s0.bpm := by
  intro n
  induction n with
  | zero => simp
  | succ n ih =>
    rw [Function.iterate_succ_apply', advanceBeat_nextBeatTime,
      advanceBeat_bpm, ih.1, ih.2]
    refine ⟨?_, rfl⟩
    push_cast
    ring

/-- C7: from `play()` with the constructor's loop bounds (`loopStart = 1`,
`loopEnd = 4`), the beat index passed to the n-th `scheduleBeat` call —
`currentBeat` after n calls of `advanceBeat` — is `n % 64`: the sequence
runs 0, 1, …, 63, 0, 1, …; the wrap check after the increment resets 64
to `(1-1)·16 = 0`, so the beat at the wrap boundary is the first beat of
the loop and no beat is skipped. -/
theorem beat_sequence_wraps (n : Nat) :
    ((advanceBeat)^[n] (play initial 0)).currentBeat = n % 64 := by
  have key : ∀ m : Nat,
      ((advanceBeat)^[m] (play initial 0)).currentBeat = m % 64 ∧
      ((advanceBeat)^[m] (play initial 0)).loopStart = 1 ∧
      ((advanceBeat)^[m] (play initial 0)).loopEnd = 4 := by
    intro m
    induction m with
    | zero => exact ⟨by decide, by decide, by decide⟩
    | succ m ih =>
      obtain ⟨h1, h2, h3⟩ := ih
      refine ⟨?_, ?_, ?_⟩
      · rw [Function.iterate_succ_apply', advanceBeat_currentBeat, h1, h2, h3]
        by_cases hw : m % 64 + 1 ≥ 4 * 16
        · rw [if_pos hw]
          omega
        · rw [if_neg hw]
          omega
      · rw [Function.iterate_succ_apply', advanceBeat_loopStart, h2]
      · rw [Function.iterate_succ_apply', advanceBeat_loopEnd, h3]
  exact (key n).1

/-- C6 (amended): `stop()` on a playing transport halts playback,
deregisters the scheduler tick (so a subsequent tick is a no-op and no
further beats are scheduled), silences every voice, and resets
`currentBeat` to the loop start — but it does not cancel the
already-deferred `onBeat` callbacks: `pendingBeats` passes through
unchanged. -/
theorem stop_halts_scheduler (s : TransportState) (h : s.isPlaying = true) :
    (stop s).isPlaying = false ∧
    (stop s).schedulerInterval = false ∧
    (stop s).currentBeat = (s.loopStart - 1) * 16 ∧
    (stop s).voices = s.voices.map (fun _ => false) ∧
    (stop s).pendingBeats = s.pendingBeats ∧
    (∀ now fuel, schedulerTick (stop s) now fuel = stop s) := by
  have hs : stop s =
      { s with
        isPlaying := false
        schedulerInterval := false
        voices := s.voices.map (fun _ => false)
        currentBeat := (s.loopStart - 1) * 16 } := by
    unfold stop
    rw [if_neg (by simp [h])]
  rw [hs]
  refine ⟨rfl, rfl, rfl, rfl, rfl, ?_⟩
  intro now fuel
  unfold schedulerTick
  rw [if_neg (by simp)]

/-- C6 counterexample: the claim says `stop()` cancels every deferred
`onBeat` callback whose time has not arrived, so `onBeat` never fires
after `stop()`.  In the source the `setTimeout` handle is dropped, so
after `play()`, one `scheduleBeat` deferral and `stop()`, the transport
is stopped with the tick cancelled — yet the deferred callback is still
pending and the runtime then fires `onBeat 0`. -/
theorem stop_pending_onBeat_counterexample :
    (Transport.stop (Transport.scheduleBeat (Transport.play Transport.initial 0) 0)).isPlaying
        = false ∧
    (Transport.stop (Transport.scheduleBeat (Transport.play Transport.initial 0) 0)).schedulerInterval
        = false ∧
    (Transport.fireNextTimeout
        (Transport.stop
          (Transport.scheduleBeat (Transport.play Transport.initial 0) 0))).map Prod.fst
        = some 0 := by
  refine ⟨rfl, rfl, rfl⟩

theorem stop_halts_scheduler_witness :
    (Transport.play Transport.initial 0).isPlaying = true ∧
    (Transport.stop (Transport.play Transport.initial 0)).isPlaying = false ∧
    (Transport.stop (Transport.play Transport.initial 0)).schedulerInterval = false ∧
    (Transport.stop (Transport.play Transport.initial 0)).pendingBeats = [] :=
  have h := Transport.stop_halts_scheduler (Transport.play Transport.initial 0) rfl
  ⟨rfl, h.1, h.2.1, h.2.2.2.2.1.trans rfl⟩

end Transport

/-! ## Timing math: real-time playback vs offline renderer -/

namespace Sequencer

/-- The `midi` column of the `NOTES` table in sequencer.js (lines 7-24),
in row order. -/
def notesMidi : List Nat :=
  [72, 71, 70, 69, 68, 67, 66, 65, 64, 63, 62, 61, 60, 59, 57, 55]

/-- The exponent of the `440 * Math.pow(2, (midi - 69) / 12)` conversion
used by `Sequencer.previewNote` and `Sequencer.onBeat` (lines 876,
897). -/
def freqExponent (midi : ℚ) : ℚ := (midi - 69) / 12

/-- The duration `Sequencer.onBeat` passes to `engine.playNote`
(lines 890-899): `stepDuration * cellData.length * 0.95` with
`stepDuration = 60 / bpm / 4`. -/
def onBeatDuration (bpm : ℚ) (len : Nat) : ℚ :=
  (60 / bpm / 4) * len * (95 / 100)

end Sequencer

namespace AudioExporter

/-- The `midi` column of the `NOTES` table in tune-library.js
(lines 258-275), in row order. -/
def notesMidi : List Nat :=
  [72, 71, 70, 69, 68, 67, 66, 65, 64, 63, 62, 61, 60, 59, 57, 55]

/-- The exponent of the `440 * Math.pow(2, (midi - 69) / 12)` conversion
in tune-library.js `midiToFrequency` (line 254). -/
def freqExponent (midi : ℚ) : ℚ := (midi - 69) / 12

/-- `secondsPerBeat = 60 / bpm / 4` in
`AudioExporter.renderToBuffer` (line 293). -/
def secondsPerBeat (bpm : ℚ) : ℚ := 60 / bpm / 4

/-- `startTime = step * secondsPerBeat` (renderToBuffer, line 337): the
render-relative note onset of the note-start at `step`. -/
def startTime (bpm : ℚ) (step : Nat) : ℚ := step * secondsPerBeat bpm

/-- `noteDuration = noteLength * secondsPerBeat` (renderToBuffer,
line 338): no margin factor is applied on the offline path. -/
def noteDuration (bpm : ℚ) (noteLength : Nat) : ℚ :=
  noteLength * secondsPerBeat bpm

end AudioExporter

/-- C5 (amended): the offline renderer reuses the transport's timing
math for onsets — the render-relative onset of step `s` equals the
virtual time at which the transport schedules beat `s` when `play` is
anchored at time 0 — and the same row-to-frequency table and conversion
formula as the sequencer; but its note duration is `L · secondsPerBeat`
with no margin factor, while the real-time path passes
`L · secondsPerBeat · 0.95`. -/
theorem render_matches_transport_timing (bpm : ℚ) (s L : Nat) :
    AudioExporter.startTime bpm s =
      ((Transport.advanceBeat)^[s]
        (Transport.play { Transport.initial with bpm := bpm } 0)).nextBeatTime ∧
    AudioExporter.notesMidi = Sequencer.notesMidi ∧
    (∀ m : ℚ, AudioExporter.freqExponent m = Sequencer.freqExponent m) ∧
    Sequencer.onBeatDuration bpm L =
      AudioExporter.noteDuration bpm L * (95 / 100) := by
  refine ⟨?_, rfl, fun m => rfl, ?_⟩
  · rw [(Transport.iterate_advanceBeat_clock
      (Transport.play { Transport.initial with bpm := bpm } 0) s).1]
    show (s : ℚ) * (60 / bpm / 4) = 0 + (s : ℚ) * (60 / bpm / 4)
    ring
  · show (60 / bpm / 4) * (L : ℚ) * (95 / 100) =
      (L : ℚ) * (60 / bpm / 4) * (95 / 100)
    ring

/-- C5 counterexample: the claim says the offline renderer computes the
same duration `L · secondsPerBeat · marginFactor (0.95)` that the
real-time path passes to the voice.  At `bpm = 120`, `L = 1` the
renderer schedules 0.125 s (renderToBuffer line 338 has no margin
factor) while `Sequencer.onBeat` passes 0.11875 s. -/
theorem render_duration_margin_counterexample :
    AudioExporter.noteDuration 120 1 ≠ Sequencer.onBeatDuration 120 1 := by
  norm_num [AudioExporter.noteDuration, Sequencer.onBeatDuration,
    AudioExporter.secondsPerBeat]

/-! ## SIDVoice parameter record -/

/-- A JS parameter value: the voice `params` record holds strings,
numbers and booleans. -/
inductive JSVal
  | str (s : String)
  | num (q : ℚ)
  | bool (b : Bool)
deriving DecidableEq

/-- The `this.params` record of the `SIDVoice` constructor
(sid-engine.js, lines 114-124). -/
structure VoiceParams where
  waveform : JSVal
  pulseWidth : JSVal
  attack : JSVal
  decay : JSVal
  sustain : JSVal
  release : JSVal
  useFilter : JSVal
  ringMod : JSVal
  sync : JSVal
deriving DecidableEq

namespace SIDVoice

/-- The constructor's initial parameter record (sid-engine.js,
lines 114-124). -/
def defaultParams : VoiceParams :=
  { waveform := .str "pulse"
    pulseWidth := .num (1 / 2)
    attack := .num (1 / 100)
    decay := .num (1 / 10)
    sustain := .num (7 / 10)
    release := .num (1 / 5)
    useFilter := .bool true
    ringMod := .bool false
    sync := .bool false }

/-- The key set of `this.params`: what `param in this.params` tests
(sid-engine.js, line 222). -/
def paramKeys : List String :=
  ["waveform", "pulseWidth", "attack", "decay", "sustain", "release",
   "useFilter", "ringMod", "sync"]

/-- `SIDVoice.setParam(param, value)` (sid-engine.js, lines 221-225):
`if (param in this.params) this.params[param] = value` — assign the
named field when the name is a key of the record, silently ignore any
other name. -/
def setParam (p : VoiceParams) (param : String) (value : JSVal) : VoiceParams :=
  if param = "waveform" then { p with waveform := value }
  else if param = "pulseWidth" then { p with pulseWidth := value }
  else if param = "attack" then { p with attack := value }
  else if param = "decay" then { p with decay := value }
  else if param = "sustain" then { p with sustain := value }
  else if param = "release" then { p with release := value }
  else if param = "useFilter" then { p with useFilter := value }
  else if param = "ringMod" then { p with ringMod := value }
  else if param = "sync" then { p with sync := value }
  else p

/-- C10: `setParam` is total and frame-bounded: a name outside the
parameter record leaves the record completely unchanged without raising,
and each known name updates exactly its own field, leaving every other
field unchanged (expressed by the single-field record updates). -/
theorem setParam_frame :
    (∀ (p : VoiceParams) (name : String) (v : JSVal),
      name ∉ paramKeys → setParam p name v = p) ∧
    (∀ (p : VoiceParams) (v : JSVal),
      setParam p "waveform" v = { p with waveform := v } ∧
      setParam p "pulseWidth" v = { p with pulseWidth := v } ∧
      setParam p "attack" v = { p with attack := v } ∧
      setParam p "decay" v = { p with decay := v } ∧
      setParam p "sustain" v = { p with sustain := v } ∧
      setParam p "release" v = { p with release := v } ∧
      setParam p "useFilter" v = { p with useFilter := v } ∧
      setParam p "ringMod" v = { p with ringMod := v } ∧
      setParam p "sync" v = { p with sync := v }) := by
  constructor
  · intro p name v hname
    simp only [paramKeys, List.mem_cons, List.mem_singleton, not_or] at hname
    obtain ⟨h1, h2, h3, h4, h5, h6, h7, h8, h9⟩ := hname
    unfold setParam
    rw [if_neg h1, if_neg h2, if_neg h3, if_neg h4, if_neg h5, if_neg h6,
      if_neg h7, if_neg h8, if_neg h9.1]
  · intro p v
    exact ⟨rfl, rfl, rfl, rfl, rfl, rfl, rfl, rfl, rfl⟩

theorem setParam_frame_witness :
    "volume" ∉ SIDVoice.paramKeys ∧
    SIDVoice.setParam SIDVoice.defaultParams "volume" (JSVal.num 1) =
      SIDVoice.defaultParams ∧
    SIDVoice.setParam SIDVoice.defaultParams "attack" (JSVal.num 1) =
      { SIDVoice.defaultParams with attack := JSVal.num 1 } :=
  ⟨by decide,
   setParam_frame.1 SIDVoice.defaultParams "volume" (JSVal.num 1) (by decide),
   (setParam_frame.2 SIDVoice.defaultParams (JSVal.num 1)).2.2.1⟩

end SIDVoice

/-! ## Export exclusivity -/

namespace AudioExporter

/-- Outcome of one export attempt: rejected as busy, failed while
rendering, failed while encoding (for MP3 this includes `lamejs` being
absent), or succeeded. -/
inductive ExportOutcome
  | busy
  | renderError
  | encodeError
  | success
deriving DecidableEq, BEq

/-- `AudioExporter.exportWAV(project, filename)` (tune-library.js,
lines 550-571): throw `'Export already in progress'` when `isExporting`
is set; otherwise set the flag and run render-then-encode inside
`try { … } finally { this.isExporting = false }`, so the flag is cleared
on success and on failure at either stage.  `renderOk` and `encodeOk`
abstract whether `renderToBuffer` and `bufferToWav` succeed; the result
pairs the outcome with the final `isExporting` flag. -/
def exportWAV (isExporting renderOk encodeOk : Bool) : ExportOutcome × Bool :=
  if isExporting then (.busy, isExporting)
  else if ¬ renderOk then (.renderError, false)
  else if ¬ encodeOk then (.encodeError, false)
  else (.success, false)

/-- `AudioExporter.exportMP3(project, filename)` (tune-library.js,
lines 524-545): as `exportWAV`, with `bufferToMp3` additionally throwing
`'MP3 encoder not loaded'` inside the `try` when `lamejs` is absent
(`encoderLoaded`). -/
def exportMP3 (isExporting renderOk encoderLoaded encodeOk : Bool) :
    ExportOutcome × Bool :=
  if isExporting then (.busy, isExporting)
  else if ¬ renderOk then (.renderError, false)
  else if ¬ (encoderLoaded ∧ encodeOk) then (.encodeError, false)
  else (.success, false)

/-- C8: `exportWAV` and `exportMP3` report the busy error exactly when an
export is already in progress, and any attempt that enters the `try`
block clears the flag on every path — success, render failure or encode
failure — so a follow-up export attempt is never rejected as busy. -/
theorem export_exclusive_flag_resets :
    (∀ f r e : Bool,
      ((exportWAV f r e).1 == .busy) = f ∧
      (exportWAV false r e).2 = false ∧
      ((exportWAV (exportWAV false r e).2 r e).1 == .busy) = false) ∧
    (∀ f r el e : Bool,
      ((exportMP3 f r el e).1 == .busy) = f ∧
      (exportMP3 false r el e).2 = false ∧
      ((exportMP3 (exportMP3 false r el e).2 r el e).1 == .busy) = false) := by
  constructor <;> decide

/-! ### WAV container encoding -/

/-- JS `ToIntegerOrInfinity` as applied by `DataView.setInt16`: truncate
the number toward zero. -/
def jsTruncate (q : ℚ) : ℤ := if 0 ≤ q then ⌊q⌋ else ⌈q⌉

/-- `DataView.setUint16(off, v, true)`: the two bytes of `v mod 2^16`,
little-endian. -/
def u16le (v : Nat) : List Nat := [v % 256, v / 256 % 256]

/-- `DataView.setUint32(off, v, true)`: the four bytes of `v mod 2^32`,
little-endian. -/
def u32le (v : Nat) : List Nat :=
  [v % 256, v / 256 % 256, v / 65536 % 256, v / 16777216 % 256]

/-- `DataView.setInt16(off, v, true)`: wrap the truncated value modulo
2^16 (two's complement) and store the two bytes little-endian. -/
def i16le (v : ℤ) : List Nat :=
  [(Int.emod v 65536).toNat % 256, (Int.emod v 65536).toNat / 256 % 256]

/-- `AudioExporter.writeString(view, offset, string)` (tune-library.js,
lines 466-470): the byte sequence of the string's char codes. -/
def writeString (s : String) : List Nat := s.toList.map Char.toNat

/-- The per-sample conversion of `bufferToWav` (lines 453-457): clamp to
[-1, 1] (`Math.max(-1, Math.min(1, sample))`), scale negatives by 0x8000
and non-negatives by 0x7FFF, then let `setInt16` truncate. -/
def toPcm16 (x : ℚ) : ℤ :=
  if max (-1) (min 1 x) < 0 then jsTruncate (max (-1) (min 1 x) * 32768)
  else jsTruncate (max (-1) (min 1 x) * 32767)

/-- The fields of a rendered `AudioBuffer` that `bufferToWav` reads:
`numberOfChannels`, `length` (frames), `sampleRate` and the per-channel
float data. -/
structure AudioBufferModel where
  numberOfChannels : Nat
  frames : Nat
  sampleRate : Nat
  channels : List (List ℚ)

/-- The sample section of the WAV file (bufferToWav, lines 444-461):
frame-major, channel-minor interleaving of the converted 16-bit
samples. -/
def sampleData (b : AudioBufferModel) : List Nat :=
  (List.range b.frames).flatMap fun i =>
    (List.range b.numberOfChannels).flatMap fun ch =>
      i16le (toPcm16 ((b.channels.getD ch []).getD i 0))

/-- `AudioExporter.bufferToWav(buffer)` (tune-library.js, lines 413-464):
the header fields written by consecutive `DataView` calls at offsets
0..43 followed by the interleaved samples, as one byte list.  The JS
locals are inlined: `bytesPerSample = 2`, `blockAlign = numChannels * 2`,
`dataLength = buffer.length * blockAlign`,
`totalLength = 44 + dataLength`. -/
def bufferToWav (b : AudioBufferModel) : List Nat :=
  writeString "RIFF"
    ++ u32le (44 + b.frames * (b.numberOfChannels * 2) - 8)
    ++ writeString "WAVE"
    ++ writeString "fmt "
    ++ u32le 16
    ++ u16le 1
    ++ u16le b.numberOfChannels
    ++ u32le b.sampleRate
    ++ u32le (b.sampleRate * (b.numberOfChannels * 2))
    ++ u16le (b.numberOfChannels * 2)
    ++ u16le 16
    ++ writeString "data"
    ++ u32le (b.frames * (b.numberOfChannels * 2))
    ++ sampleData b

/-- Read back the little-endian 16-bit field at byte offset `off`. -/
def readU16LE (bs : List Nat) (off : Nat) : Nat :=
  match bs.drop off with
  | b0 :: b1 :: _ => b0 + 256 * b1
  | _ => 0

/-- Read back the little-endian 32-bit field at byte offset `off`. -/
def readU32LE (bs : List Nat) (off : Nat) : Nat :=
  match bs.drop off with
  | b0 :: b1 :: b2 :: b3 :: _ => b0 + 256 * b1 + 65536 * b2 + 16777216 * b3
  | _ => 0

theorem readU32LE_here {bs : List Nat} {off v : Nat}
    (h : ∃ rest, bs.drop off = u32le v ++ rest) (hv : v < 4294967296) :
    readU32LE bs off = v := by
  obtain ⟨rest, h⟩ := h
  unfold readU32LE
  rw [h]
  show v % 256 + 256 * (v / 256 % 256) + 65536 * (v / 65536 % 256)
      + 16777216 * (v / 16777216 % 256) = v
  omega

theorem readU16LE_here {bs : List Nat} {off v : Nat}
    (h : ∃ rest, bs.drop off = u16le v ++ rest) (hv : v < 65536) :
    readU16LE bs off = v := by
  obtain ⟨rest, h⟩ := h
  unfold readU16LE
  rw [h]
  show v % 256 + 256 * (v / 256 % 256) = v
  omega

theorem length_flatMap_const {α : Type} (f : α → List Nat) (l : List α)
    (k : Nat) (hf : ∀ x ∈ l, (f x).length = k) :
    (l.flatMap f).length = l.length * k := by
  induction l with
  | nil => simp
  | cons x xs ih =>
    rw [List.flatMap_cons, List.length_append, hf x (List.mem_cons_self x xs),
      ih (fun y hy => hf y (List.mem_cons_of_mem _ hy)), List.length_cons]
    ring

theorem sampleData_length (b : AudioBufferModel) :
    (sampleData b).length = b.frames * (b.numberOfChannels * 2) := by
  unfold sampleData
  have hinner : ∀ i : Nat,
      ((List.range b.numberOfChannels).flatMap fun ch =>
        i16le (toPcm16 ((b.channels.getD ch []).getD i 0))).length =
        b.numberOfChannels * 2 := by
    intro i
    rw [length_flatMap_const
        (fun ch => i16le (toPcm16 ((b.channels.getD ch []).getD i 0)))
        (List.range b.numberOfChannels) 2 (fun ch _ => rfl),
      List.length_range]
  rw [length_flatMap_const _ _ (b.numberOfChannels * 2) (fun i _ => hinner i),
    List.length_range]

set_option maxHeartbeats 2000000 in
/-- C9: the WAV container layout.  For a 44.1 kHz buffer (with channel
count and data size inside the 16/32-bit field ranges), `bufferToWav`
produces the canonical 44-byte RIFF/WAVE header — RIFF marker, RIFF
chunk size `36 + N·ch·2`, WAVE + fmt markers, fmt chunk size 16, PCM
format 1, channel count, sample rate 44100, byte rate `44100·ch·2`,
block align `ch·2`, 16 bits per sample, data marker, data chunk size
`N·ch·2` — followed by the `N·ch` interleaved little-endian 16-bit
samples obtained by clamping each float to [-1,1] and scaling by 0x8000
(negative) or 0x7FFF (non-negative). -/
theorem bufferToWav_layout (b : AudioBufferModel)
    (hsr : b.sampleRate = 44100)
    (hch : b.numberOfChannels * 2 < 65536)
    (hsz : 36 + b.frames * (b.numberOfChannels * 2) < 4294967296) :
    (bufferToWav b).take 4 = writeString "RIFF" ∧
    readU32LE (bufferToWav b) 4 = 36 + b.frames * (b.numberOfChannels * 2) ∧
    ((bufferToWav b).drop 8).take 8 = writeString "WAVE" ++ writeString "fmt " ∧
    readU32LE (bufferToWav b) 16 = 16 ∧
    readU16LE (bufferToWav b) 20 = 1 ∧
    readU16LE (bufferToWav b) 22 = b.numberOfChannels ∧
    readU32LE (bufferToWav b) 24 = 44100 ∧
    readU32LE (bufferToWav b) 28 = 44100 * (b.numberOfChannels * 2) ∧
    readU16LE (bufferToWav b) 32 = b.numberOfChannels * 2 ∧
    readU16LE (bufferToWav b) 34 = 16 ∧
    ((bufferToWav b).drop 36).take 4 = writeString "data" ∧
    readU32LE (bufferToWav b) 40 = b.frames * (b.numberOfChannels * 2) ∧
    (bufferToWav b).drop 44 = sampleData b ∧
    ((bufferToWav b).drop 44).length = b.frames * (b.numberOfChannels * 2) := by
  refine ⟨rfl, ?_, rfl, ?_, ?_, ?_, ?_, ?_, ?_, ?_, rfl, ?_, rfl, ?_⟩
  · exact (readU32LE_here ⟨_, rfl⟩ (by omega)).trans (by omega)
  · exact readU32LE_here ⟨_, rfl⟩ (by omega)
  · exact readU16LE_here ⟨_, rfl⟩ (by omega)
  · exact readU16LE_here ⟨_, rfl⟩ (by omega)
  · exact (readU32LE_here ⟨_, rfl⟩ (by rw [hsr]; omega)).trans hsr
  · exact (readU32LE_here ⟨_, rfl⟩ (by rw [hsr]; omega)).trans
      (by rw [hsr])
  · exact readU16LE_here ⟨_, rfl⟩ (by omega)
  · exact readU16LE_here ⟨_, rfl⟩ (by omega)
  · exact readU32LE_here ⟨_, rfl⟩ (by omega)
  · show (sampleData b).length = _
    exact sampleData_length b

theorem bufferToWav_layout_witness :
    (⟨2, 2, 44100, [[1 / 2, -1 / 2], [0, 2]]⟩ : AudioBufferModel).numberOfChannels * 2
        < 65536 ∧
    readU32LE (bufferToWav ⟨2, 2, 44100, [[1 / 2, -1 / 2], [0, 2]]⟩) 4 =
      36 + 2 * (2 * 2) ∧
    readU16LE (bufferToWav ⟨2, 2, 44100, [[1 / 2, -1 / 2], [0, 2]]⟩) 22 = 2 ∧
    readU32LE (bufferToWav ⟨2, 2, 44100, [[1 / 2, -1 / 2], [0, 2]]⟩) 24 = 44100 :=
  have h := bufferToWav_layout ⟨2, 2, 44100, [[1 / 2, -1 / 2], [0, 2]]⟩
    rfl (by decide) (by decide)
  ⟨by decide, h.2.1, h.2.2.2.2.2.1, h.2.2.2.2.2.2.1⟩

end AudioExporter
